import Mathlib

/-!
Verification development for the `biling_tempo` phonetic-duration pipeline
(`src/tempo.py`).

The pipeline is shallowly embedded as follows.

* A pandas `DataFrame` is a `Frame`: a list of `Row`s plus Boolean flags
  recording which optional columns are present at the frame level (pandas
  column presence is a property of the frame, not of a cell).  A missing
  cell (`NaN`) is `none`.
* Numeric cells are rationals (`ℚ`), the standard idealization of the
  float arithmetic in the source; statistics about the printed standard
  deviation (a square root) are phrased through the sample variance,
  of which the printed value is the square root.
* `df.sort_values(by=[...])` on several keys uses `numpy.lexsort`, which
  is a stable sort; it is embedded as a stable insertion sort `isortLe`.
  `NaN` keys sort last (`na_position="last"`), hence `none` is greatest
  in `ostrLe`.
* `groupby(...).cumcount()` is embedded as `cumIndex`, which walks the
  frame in order and counts the previously seen rows with the same key.
* `groupby(...).transform("max")` of `v_index` is embedded as `nOf`.
* Python string lowering is embedded by `pyLowerChar`, which covers the
  alphabets actually occurring in this program (ASCII and Cyrillic);
  `in` (substring test) is embedded by `strContains`.
* Reading the three Excel files is external I/O; the embedding starts
  from the concatenated frame that `pd.concat` of the three loaded
  sources yields, which is the input of the post-concatenation part of
  `prepare_full_dataframe`.
-/

namespace BilingTempo

/-- One row of the unified dataframe.  Optional columns whose cells can be
missing (`NaN`) are `Option`-valued; `variant` is stamped by the loader and
always present. -/
structure Row where
  file_name : Option String := none
  variant : String := ""
  transcription_phonemes : Option String := none
  emotion : Option String := none
  percent_duration : Option ℚ := none
  total_duration : Option ℚ := none
  duration : Option ℚ := none
  dur_s : Option ℚ := none
  v_index : Option Nat := none
  zone : Option String := none
deriving DecidableEq

/-- A dataframe: per-frame column-presence flags plus the rows.
`hasDur` records whether the `dur_s` column exists (it is created by
`prepare_full_dataframe`). -/
structure Frame where
  hasFileName : Bool := false
  hasEmotion : Bool := false
  hasTranscription : Bool := false
  hasPercent : Bool := false
  hasTotal : Bool := false
  hasDuration : Bool := false
  hasDur : Bool := false
  rows : List Row := []
deriving DecidableEq

deriving instance DecidableEq for Except

/-- Python `str.lower` restricted to the alphabets this program uses:
ASCII `A`–`Z`, Cyrillic `А`–`Я` (U+0410–U+042F) and `Ё` (U+0401). -/
def pyLowerChar (c : Char) : Char :=
  if 65 ≤ c.toNat ∧ c.toNat ≤ 90 then Char.ofNat (c.toNat + 32)
  else if 1040 ≤ c.toNat ∧ c.toNat ≤ 1071 then Char.ofNat (c.toNat + 32)
  else if c.toNat = 1025 then Char.ofNat 1105
  else c

/-- Python `str.lower` on a whole string. -/
def pyLowerStr (s : String) : String := String.mk (s.data.map pyLowerChar)

/-- Python `pat in s` on character lists: some suffix of `s` starts
with `pat`. -/
def listHas : List Char → List Char → Bool
  | [], pat => decide (pat = [])
  | c :: rest, pat => pat.isPrefixOf (c :: rest) || listHas rest pat

/-- Python `pat in s` for strings. -/
def strContains (s pat : String) : Bool := listHas s.data pat.data

/-- `detect_emotion` from `src/tempo.py`: lower-case the name, then test
the substrings in order; first match wins. -/
def detect_emotion (name : String) : String :=
  let s := pyLowerStr name
  if strContains s "гнев" then "гнев"
  else if strContains s "радост" then "радость"
  else if strContains s "нейтр" || strContains s "neutr" then "нейтральная"
  else "другое"

/-- The filter predicate of `df[df["transcription_phonemes"].str.lower() != "consonant"]`:
a missing cell (`NaN`) compares unequal to `"consonant"` in pandas and is
kept. -/
def keepRow (r : Row) : Bool :=
  match r.transcription_phonemes with
  | none => true
  | some s => decide (pyLowerStr s ≠ "consonant")

/-- Python `str(cell)` for a possibly missing cell: `str(np.nan) = "nan"`. -/
def strOfCell : Option String → String
  | some s => s
  | none => "nan"

/-- The emotion-derivation step of `prepare_full_dataframe`: if the
`emotion` column is absent it is derived from `file_name` by
`detect_emotion`, and a `SchemaError` (`ValueError`) is raised when
neither column exists. -/
def deriveEmotion (hasEmotion hasFileName : Bool) (rows : List Row) :
    Except String (List Row) :=
  if hasEmotion then .ok rows
  else if hasFileName then
    .ok (rows.map (fun r => {r with emotion := some (detect_emotion (strOfCell r.file_name))}))
  else .error "Для определения эмоции нужен столбец emotion или file_name"

/-- `a / c` with a possibly missing numerator (NaN propagates). -/
def odiv (a : Option ℚ) (c : ℚ) : Option ℚ := a.map (fun x => x / c)

/-- Cellwise product with NaN propagation. -/
def omul : Option ℚ → Option ℚ → Option ℚ
  | some x, some y => some (x * y)
  | _, _ => none

/-- The `dur_s` derivation of `prepare_full_dataframe`: from
`total_duration` when that column exists, else from `duration`, else
`NaN` everywhere. -/
def deriveDur (hasTotal hasDuration : Bool) (r : Row) : Row :=
  if hasTotal then {r with dur_s := omul (odiv r.percent_duration 100) r.total_duration}
  else if hasDuration then {r with dur_s := r.duration}
  else {r with dur_s := none}

/-- `prepare_full_dataframe` from `src/tempo.py`, starting from the
concatenated frame `g` of the three loaded sources: require the
`transcription_phonemes` column, drop consonant rows, derive `emotion`
when absent, require `percent_duration`, and always create the `dur_s`
column. -/
def prepare_full_dataframe (g : Frame) : Except String Frame :=
  if g.hasTranscription = true then
    match deriveEmotion g.hasEmotion g.hasFileName (g.rows.filter keepRow) with
    | .error e => .error e
    | .ok rows2 =>
      if g.hasPercent = true then
        .ok {g with hasEmotion := true, hasDur := true,
                    rows := rows2.map (deriveDur g.hasTotal g.hasDuration)}
      else .error "Не найден столбец percent_duration / persent_duration"
  else .error "Не найден столбец transcription_phonemes"

/-- The grouping key of `assign_zones`: `(variant, emotion, file_name)`. -/
abbrev Key := String × Option String × Option String

/-- The sort/group key of a row. -/
def rowKey (r : Row) : Key := (r.variant, r.emotion, r.file_name)

/-- Code-point lexicographic comparison of character lists, as Python and
pandas compare strings. -/
def listLe : List Char → List Char → Bool
  | [], _ => true
  | _ :: _, [] => false
  | a :: as, b :: bs => if a.toNat = b.toNat then listLe as bs else decide (a.toNat < b.toNat)

/-- String comparison used by `sort_values`. -/
def strLeB (a b : String) : Bool := listLe a.data b.data

/-- Comparison of a possibly missing key cell: pandas places `NaN` last
(`na_position="last"`), so `none` is greatest. -/
def ostrLe : Option String → Option String → Bool
  | some a, some b => strLeB a b
  | some _, none => true
  | none, some _ => false
  | none, none => true

/-- Lexicographic comparison of `(variant, emotion, file_name)` keys. -/
def keyLe (a b : Key) : Bool :=
  if a.1 = b.1 then
    if a.2.1 = b.2.1 then ostrLe a.2.2 b.2.2
    else ostrLe a.2.1 b.2.1
  else strLeB a.1 b.1

/-- Row comparison for `df.sort_values(by=["variant", "emotion", "file_name"])`. -/
def rowLe (a b : Row) : Bool := keyLe (rowKey a) (rowKey b)

/-- Stable insertion into a sorted list: a new element goes before the
first element it compares `le` to, hence after all earlier equal keys. -/
def insertLe (le : α → α → Bool) (x : α) : List α → List α
  | [] => [x]
  | y :: ys => if le x y then x :: y :: ys else y :: insertLe le x ys

/-- Stable insertion sort, the embedding of the stable multi-key
`sort_values`. -/
def isortLe (le : α → α → Bool) : List α → List α
  | [] => []
  | x :: xs => insertLe le x (isortLe le xs)

/-- Number of occurrences of key `k` in a list of keys. -/
def kcount (k : Key) (l : List Key) : Nat := l.countP (fun x => decide (x = k))

/-- `groupby(["variant","emotion","file_name"]).cumcount() + 1`: each row
gets one plus the number of previously seen rows with its key. -/
def cumIndex (seen : List Key) : List Row → List Row
  | [] => []
  | r :: rs =>
    {r with v_index := some (kcount (rowKey r) seen + 1)} ::
      cumIndex (seen ++ [rowKey r]) rs

/-- Maximum of a list of naturals (`0` when empty). -/
def listMax (l : List Nat) : Nat := l.foldr max 0

/-- `groupby(...)["v_index"].transform("max")` evaluated at key `k`. -/
def nOf (l : List Row) (k : Key) : Nat :=
  listMax ((l.filter (fun s => decide (rowKey s = k))).filterMap Row.v_index)

/-- `zone_for_row` from `src/tempo.py` (Python integers, hence `ℤ`). -/
def zone_for_row (row_count row_index : ℤ) : String :=
  if row_index ≤ 3 then "начало"
  else if row_index > row_count - 3 then "конец"
  else "середина"

/-- The per-row zone assignment of the vectorized
`np.vectorize(zone_for_row)(counts, df["v_index"])`: each row's zone from
its group's `v_index` maximum in `l` and its own `v_index`. -/
def zoneFun (l : List Row) (r : Row) : Row :=
  {r with zone := some (zone_for_row (Int.ofNat (nOf l (rowKey r))) (Int.ofNat (r.v_index.getD 0)))}

/-- The vectorized zone computation over the whole frame. -/
def zoneStep (l : List Row) : List Row := l.map (zoneFun l)

/-- `assign_zones` from `src/tempo.py`: require `file_name`, stable-sort by
the key, assign `v_index` by `cumcount`, and compute the zone of every row. -/
def assign_zones (f : Frame) : Except String Frame :=
  if f.hasFileName = true then
    .ok {f with rows := zoneStep (cumIndex [] (isortLe rowLe f.rows))}
  else .error "Для позиционного анализа необходим столбец file_name"

/-- Mean of a numeric column over a group: pandas skips `NaN` cells and
yields `NaN` on an all-`NaN` group. -/
def omean (xs : List (Option ℚ)) : Option ℚ :=
  let v := xs.filterMap id
  if v.length = 0 then none else some (v.sum / (v.length : ℚ))

/-- Sample variance (`ddof = 1`) of a numeric column over a group; the
printed standard deviation is its square root, and a group with fewer
than two values yields `NaN`. -/
def osvar (xs : List (Option ℚ)) : Option ℚ :=
  let v := xs.filterMap id
  if v.length ≤ 1 then none
  else
    some (((v.map (fun x => (x - v.sum / (v.length : ℚ)) * (x - v.sum / (v.length : ℚ)))).sum)
            / (((v.length - 1 : ℕ) : ℚ)))

/-- Comparison of `(emotion, variant)` group keys, as `groupby` sorts them. -/
def pairLe (a b : String × String) : Bool :=
  if a.1 = b.1 then strLeB a.2 b.2 else strLeB a.1 b.1

/-- Comparison of `(emotion, variant, zone)` group keys. -/
def tripleLe (a b : String × String × String) : Bool :=
  if a.1 = b.1 then pairLe a.2 b.2 else strLeB a.1 b.1

/-- The distinct `(emotion, variant)` keys present in the frame, sorted as
`groupby` sorts them; rows with a missing `emotion` key are dropped
(`dropna`). -/
def overallKeys (rows : List Row) : List (String × String) :=
  isortLe pairLe ((rows.filterMap (fun r => r.emotion.map (fun e => (e, r.variant)))).dedup)

/-- The `percent_duration` column of the `(emotion, variant)` group `k`. -/
def groupPd (rows : List Row) (k : String × String) : List (Option ℚ) :=
  (rows.filter (fun r => decide (r.emotion = some k.1) && decide (r.variant = k.2))).map
    Row.percent_duration

/-- The `dur_s` column of the `(emotion, variant)` group `k`. -/
def groupDur (rows : List Row) (k : String × String) : List (Option ℚ) :=
  (rows.filter (fun r => decide (r.emotion = some k.1) && decide (r.variant = k.2))).map
    Row.dur_s

/-- One row of the overall table.  `pdVar`/`dVar` hold the sample
variances of which the printed `SD` columns are the square roots;
`dMean`/`dVar` are meaningful only when the table has duration columns. -/
structure OverallRow where
  emotion : String
  variant : String
  pdMean : Option ℚ
  pdVar : Option ℚ
  dMean : Option ℚ := none
  dVar : Option ℚ := none
deriving DecidableEq

/-- The overall table; `hasDurCols` records whether the
`Средняя_длительность_с` / `SD_длительности_с` columns are present. -/
structure OverallTable where
  hasDurCols : Bool
  rows : List OverallRow
deriving DecidableEq

/-- `compute_overall_table` from `src/tempo.py`: group by
`(emotion, variant)`, mean and sample standard deviation of
`percent_duration`, plus the same for `dur_s` when that column exists. -/
def compute_overall_table (f : Frame) : OverallTable :=
  { hasDurCols := f.hasDur,
    rows := (overallKeys f.rows).map (fun k =>
      { emotion := k.1, variant := k.2,
        pdMean := omean (groupPd f.rows k),
        pdVar := osvar (groupPd f.rows k),
        dMean := if f.hasDur then omean (groupDur f.rows k) else none,
        dVar := if f.hasDur then osvar (groupDur f.rows k) else none }) }

/-- One row of the zone table. -/
structure ZoneRow where
  emotion : String
  variant : String
  zone : String
  pdMean : Option ℚ
  pdVar : Option ℚ
  dMean : Option ℚ := none
  dVar : Option ℚ := none
deriving DecidableEq

/-- The zone table. -/
structure ZoneTable where
  hasDurCols : Bool
  rows : List ZoneRow
deriving DecidableEq

/-- The distinct `(emotion, variant, zone)` keys of the zone-assigned
frame, sorted as `groupby` sorts them. -/
def zoneKeys (rows : List Row) : List (String × String × String) :=
  isortLe tripleLe
    ((rows.filterMap (fun r =>
        match r.emotion, r.zone with
        | some e, some z => some (e, r.variant, z)
        | _, _ => none)).dedup)

/-- The `percent_duration` column of the `(emotion, variant, zone)` group. -/
def groupPdZ (rows : List Row) (k : String × String × String) : List (Option ℚ) :=
  (rows.filter (fun r =>
      decide (r.emotion = some k.1) && decide (r.variant = k.2.1) &&
      decide (r.zone = some k.2.2))).map Row.percent_duration

/-- The `dur_s` column of the `(emotion, variant, zone)` group. -/
def groupDurZ (rows : List Row) (k : String × String × String) : List (Option ℚ) :=
  (rows.filter (fun r =>
      decide (r.emotion = some k.1) && decide (r.variant = k.2.1) &&
      decide (r.zone = some k.2.2))).map Row.dur_s

/-- `compute_zone_table` from `src/tempo.py`: assign zones, then aggregate
by `(emotion, variant, zone)`. -/
def compute_zone_table (f : Frame) : Except String ZoneTable :=
  match assign_zones f with
  | .error e => .error e
  | .ok fz =>
    .ok { hasDurCols := fz.hasDur,
          rows := (zoneKeys fz.rows).map (fun k =>
            { emotion := k.1, variant := k.2.1, zone := k.2.2,
              pdMean := omean (groupPdZ fz.rows k),
              pdVar := osvar (groupPdZ fz.rows k),
              dMean := if fz.hasDur then omean (groupDurZ fz.rows k) else none,
              dVar := if fz.hasDur then osvar (groupDurZ fz.rows k) else none }) }

/-- The pivot summary: rows indexed by `(emotion, zone)`, one cell per
variant, each cell the mean of the matching zone-table mean values. -/
structure PivotTable where
  variants : List String
  rows : List ((String × String) × List (Option ℚ))
deriving DecidableEq

/-- `pivot_table(index=["Эмоция","Зона"], columns="Вариант",
values="Средний_%_длительности")` with the default `mean` aggregation. -/
def pivotSummary (zt : ZoneTable) : PivotTable :=
  let idx := isortLe pairLe ((zt.rows.map (fun r => (r.emotion, r.zone))).dedup)
  let cols := isortLe strLeB ((zt.rows.map (fun r => r.variant)).dedup)
  { variants := cols,
    rows := idx.map (fun p => (p, cols.map (fun v =>
      omean ((zt.rows.filter (fun r =>
        decide (r.emotion = p.1) && decide (r.zone = p.2) &&
        decide (r.variant = v))).map (fun r => r.pdMean))))) }

/-- One printed report of the `__main__` block. -/
inductive Output where
  | overall : OverallTable → Output
  | zones : ZoneTable → Output
  | pivot : PivotTable → Output
deriving DecidableEq

/-- The `__main__` block of `src/tempo.py` as a trace: the list of tables
printed to standard output, in order, and the error that aborted the run,
if any.  The overall table is printed before `compute_zone_table` runs. -/
def runMain (g : Frame) : List Output × Option String :=
  match prepare_full_dataframe g with
  | .error e => ([], some e)
  | .ok f =>
    let ot := compute_overall_table f
    match compute_zone_table f with
    | .error e => ([Output.overall ot], some e)
    | .ok zt => ([Output.overall ot, Output.zones zt, Output.pivot (pivotSummary zt)], none)

/-- A row stripped of the two annotations the Zone Assigner writes
(`v_index`, `zone`): the identity of the record for order-preservation
statements. -/
def payload (r : Row) : Row := {r with v_index := none, zone := none}

/-- The rows of the `(variant, emotion, file_name)` group `k`, in frame
order. -/
def groupRows (l : List Row) (k : Key) : List Row :=
  l.filter (fun s => decide (rowKey s = k))

/-! ### Concrete frames used to instantiate the theorems -/

/-- A vowel row of utterance `fn` with the given percent duration. -/
def wRow (fn : String) (pd : ℚ) : Row :=
  { file_name := some fn, variant := "в", transcription_phonemes := some "a", emotion := some "э", percent_duration := some pd }

/-- A small frame with two interleaved utterances (`u1`, `u2`). -/
def wA : Frame :=
  { hasFileName := true, hasEmotion := true, hasTranscription := true, hasPercent := true,
    rows := [wRow "u1" 1, wRow "u2" 4, wRow "u1" 2, wRow "u2" 5, wRow "u1" 3] }

/-- The zone-assigned result of `wA`: sorted by key (stably), `v_index`
restarted per utterance, all zones start (groups of sizes 3 and 2). -/
def wAZ : Frame :=
  { hasFileName := true, hasEmotion := true, hasTranscription := true, hasPercent := true,
    rows := [{wRow "u1" 1 with v_index := some 1, zone := some "начало"},
             {wRow "u1" 2 with v_index := some 2, zone := some "начало"},
             {wRow "u1" 3 with v_index := some 3, zone := some "начало"},
             {wRow "u2" 4 with v_index := some 1, zone := some "начало"},
             {wRow "u2" 5 with v_index := some 2, zone := some "начало"}] }

/-- A frame holding one utterance of ten vowels. -/
def wT : Frame :=
  { hasFileName := true, hasEmotion := true, hasTranscription := true, hasPercent := true,
    rows := [wRow "u" 1, wRow "u" 2, wRow "u" 3, wRow "u" 4, wRow "u" 5, wRow "u" 6, wRow "u" 7, wRow "u" 8, wRow "u" 9, wRow "u" 10] }

/-- The zone-assigned result of `wT`: the n = 10 zone pattern. -/
def wTZ : Frame :=
  { hasFileName := true, hasEmotion := true, hasTranscription := true, hasPercent := true,
    rows := [{wRow "u" 1 with v_index := some 1, zone := some "начало"},
             {wRow "u" 2 with v_index := some 2, zone := some "начало"},
             {wRow "u" 3 with v_index := some 3, zone := some "начало"},
             {wRow "u" 4 with v_index := some 4, zone := some "середина"},
             {wRow "u" 5 with v_index := some 5, zone := some "середина"},
             {wRow "u" 6 with v_index := some 6, zone := some "середина"},
             {wRow "u" 7 with v_index := some 7, zone := some "середина"},
             {wRow "u" 8 with v_index := some 8, zone := some "конец"},
             {wRow "u" 9 with v_index := some 9, zone := some "конец"},
             {wRow "u" 10 with v_index := some 10, zone := some "конец"}] }

/-- A row of the concrete scenario of the spec (utterance `u1`, Russian
monolingual variant, neutral emotion). -/
def rowU1 (pd : ℚ) : Row :=
  { file_name := some "u1", variant := "русский вариант", transcription_phonemes := some "a", emotion := some "нейтральная", percent_duration := some pd }

/-- The concrete scenario input: three records, percent durations
10, 20, 70, no duration columns. -/
def raw9 : Frame :=
  { hasFileName := true, hasEmotion := true, hasTranscription := true, hasPercent := true,
    rows := [rowU1 10, rowU1 20, rowU1 70] }

/-- The assembled frame of the concrete scenario (`dur_s` created but
missing everywhere). -/
def f9 : Frame :=
  { hasFileName := true, hasEmotion := true, hasTranscription := true, hasPercent := true, hasDur := true,
    rows := [rowU1 10, rowU1 20, rowU1 70] }

/-- The zone-assigned frame of the concrete scenario. -/
def z9 : Frame :=
  { hasFileName := true, hasEmotion := true, hasTranscription := true, hasPercent := true, hasDur := true,
    rows := [{rowU1 10 with v_index := some 1, zone := some "начало"},
             {rowU1 20 with v_index := some 2, zone := some "начало"},
             {rowU1 70 with v_index := some 3, zone := some "начало"}] }

/-- A frame whose `emotion` column exists but whose `file_name` column is
missing: dataset assembly succeeds, zone assignment raises. -/
def cx2 : Frame :=
  { hasFileName := false, hasEmotion := true, hasTranscription := true, hasPercent := true,
    rows := [{ variant := "в", transcription_phonemes := some "a", emotion := some "э", percent_duration := some 5 }] }

/-- A frame missing the `transcription_phonemes` column. -/
def cx2b : Frame := { hasTranscription := false }

/-- A row with both `percent_duration` and `total_duration` present. -/
def row8 : Row :=
  { file_name := some "u", variant := "в", transcription_phonemes := some "a", emotion := some "э", percent_duration := some 10, total_duration := some 2 }

/-- A frame with a `total_duration` column. -/
def g8 : Frame :=
  { hasFileName := true, hasEmotion := true, hasTranscription := true, hasPercent := true, hasTotal := true,
    rows := [row8] }

/-- The row of `g8` after assembly: `dur_s = 10 / 100 * 2` (= 1/5). -/
def row8d : Row := {row8 with dur_s := omul (odiv (some 10) 100) (some 2)}

/-- The assembled frame of `g8`. -/
def f8 : Frame :=
  { hasFileName := true, hasEmotion := true, hasTranscription := true, hasPercent := true, hasTotal := true, hasDur := true,
    rows := [row8d] }

/-- A row with a missing `transcription_phonemes` cell. -/
def rowN : Row := { variant := "в", emotion := some "э", percent_duration := some 1 }

/-- A consonant row (case-insensitively). -/
def rowC : Row :=
  { variant := "в", transcription_phonemes := some "Consonant", emotion := some "э", percent_duration := some 2 }

/-- An ordinary vowel row. -/
def rowV : Row :=
  { variant := "в", transcription_phonemes := some "a", emotion := some "э", percent_duration := some 3 }

/-- A frame exercising the consonant filter on a missing cell, a
consonant row and a vowel row. -/
def g10 : Frame :=
  { hasEmotion := true, hasTranscription := true, hasPercent := true,
    rows := [rowN, rowC, rowV] }

/-- The assembled frame of `g10`: the consonant row is dropped, the
missing-cell row is kept. -/
def f10 : Frame :=
  { hasEmotion := true, hasTranscription := true, hasPercent := true, hasDur := true,
    rows := [rowN, rowV] }

/-! ### Generic facts about the stable insertion sort -/

theorem insertLe_perm {α : Type} (le : α → α → Bool) (x : α) :
    ∀ l : List α, (insertLe le x l).Perm (x :: l)
  | [] => List.Perm.refl _
  | y :: ys => by
    simp only [insertLe]
    split
    · exact List.Perm.refl _
    · exact ((insertLe_perm le x ys).cons y).trans (List.Perm.swap x y ys)

theorem isortLe_perm {α : Type} (le : α → α → Bool) :
    ∀ l : List α, (isortLe le l).Perm l
  | [] => List.Perm.refl _
  | x :: xs => (insertLe_perm le x (isortLe le xs)).trans ((isortLe_perm le xs).cons x)

theorem filter_insertLe {α : Type} (le : α → α → Bool) (p : α → Bool)
    (hp : ∀ a b, p a = true → p b = true → le a b = true) (x : α) :
    ∀ l : List α, (insertLe le x l).filter p =
      if p x then x :: l.filter p else l.filter p
  | [] => by
    simp only [insertLe, List.filter_cons, List.filter_nil]
  | y :: ys => by
    simp only [insertLe]
    cases hxy : le x y with
    | true => simp [List.filter_cons]
    | false =>
      have hrec := filter_insertLe le p hp x ys
      cases hx : p x with
      | true =>
        have hy : p y = false := by
          cases hpy : p y with
          | true => exact absurd (hp x y hx hpy) (by simp [hxy])
          | false => rfl
        simp [List.filter_cons, hy, hrec, hx]
      | false =>
        cases hy : p y with
        | true => simp [List.filter_cons, hy, hrec, hx]
        | false => simp [List.filter_cons, hy, hrec, hx]

theorem filter_isortLe {α : Type} (le : α → α → Bool) (p : α → Bool)
    (hp : ∀ a b, p a = true → p b = true → le a b = true) :
    ∀ l : List α, (isortLe le l).filter p = l.filter p
  | [] => rfl
  | x :: xs => by
    rw [isortLe, filter_insertLe le p hp, filter_isortLe le p hp xs, List.filter_cons]

theorem chain'_insertLe {α : Type} (le : α → α → Bool)
    (htot : ∀ a b, le a b = false → le b a = true) (x : α) :
    ∀ l : List α, List.Chain' (fun a b => le a b = true) l →
      List.Chain' (fun a b => le a b = true) (insertLe le x l)
  | [], _ => List.chain'_singleton x
  | y :: ys, h => by
    simp only [insertLe]
    cases hxy : le x y with
    | true =>
      simp only [if_true]
      exact List.Chain'.cons hxy h
    | false =>
      simp only [Bool.false_eq_true, if_false]
      have hyx : le y x = true := htot x y hxy
      cases ys with
      | nil =>
        simp only [insertLe]
        exact List.chain'_pair.mpr hyx
      | cons z zs =>
        have htail : List.Chain' (fun a b => le a b = true) (insertLe le x (z :: zs)) :=
          chain'_insertLe le htot x (z :: zs) h.tail
        simp only [insertLe] at htail ⊢
        cases hxz : le x z with
        | true =>
          simp only [hxz, if_true] at htail ⊢
          exact List.Chain'.cons hyx htail
        | false =>
          simp only [hxz, Bool.false_eq_true, if_false] at htail ⊢
          exact List.Chain'.cons (List.chain'_cons.mp h).1 htail

theorem chain'_isortLe {α : Type} (le : α → α → Bool)
    (htot : ∀ a b, le a b = false → le b a = true) :
    ∀ l : List α, List.Chain' (fun a b => le a b = true) (isortLe le l)
  | [] => List.chain'_nil
  | x :: xs => chain'_insertLe le htot x (isortLe le xs) (chain'_isortLe le htot xs)

theorem isortLe_eq_self {α : Type} (le : α → α → Bool) :
    ∀ l : List α, List.Chain' (fun a b => le a b = true) l → isortLe le l = l
  | [], _ => rfl
  | [x], _ => rfl
  | x :: y :: ys, h => by
    rw [isortLe, isortLe_eq_self le (y :: ys) h.tail]
    simp only [insertLe, (List.chain'_cons.mp h).1, if_true]

/-! ### The key comparison is reflexive and total -/

theorem listLe_refl : ∀ l : List Char, listLe l l = true
  | [] => rfl
  | a :: as => by simp [listLe, listLe_refl as]

theorem listLe_total : ∀ a b : List Char, listLe a b = false → listLe b a = true
  | [], _, h => by simp [listLe] at h
  | _ :: _, [], _ => rfl
  | a :: as, b :: bs, h => by
    by_cases hab : a.toNat = b.toNat
    · simp only [listLe, hab, if_true] at h
      simp only [listLe, hab.symm, if_true]
      exact listLe_total as bs h
    · simp only [listLe, hab, if_false, decide_eq_false_iff_not, Nat.not_lt] at h
      have hba : b.toNat ≠ a.toNat := fun hba => hab hba.symm
      simp only [listLe, hba, if_false, decide_eq_true_eq]
      exact lt_of_le_of_ne h hba

theorem strLeB_refl (s : String) : strLeB s s = true := listLe_refl s.data

theorem strLeB_total (a b : String) (h : strLeB a b = false) : strLeB b a = true :=
  listLe_total a.data b.data h

theorem ostrLe_refl : ∀ a : Option String, ostrLe a a = true
  | none => rfl
  | some s => strLeB_refl s

theorem ostrLe_total : ∀ a b : Option String, ostrLe a b = false → ostrLe b a = true
  | none, none, h => by simp [ostrLe] at h
  | none, some _, _ => rfl
  | some _, none, h => by simp [ostrLe] at h
  | some a, some b, h => strLeB_total a b h

theorem keyLe_refl (k : Key) : keyLe k k = true := by
  simp [keyLe, ostrLe_refl]

theorem keyLe_total (a b : Key) (h : keyLe a b = false) : keyLe b a = true := by
  by_cases h1 : a.1 = b.1
  · simp only [keyLe, h1, if_true] at h
    simp only [keyLe, h1.symm, if_true]
    by_cases h2 : a.2.1 = b.2.1
    · simp only [h2, if_true] at h
      simp only [h2.symm, if_true]
      exact ostrLe_total _ _ h
    · have h2s : b.2.1 ≠ a.2.1 := fun hh => h2 hh.symm
      simp only [h2, if_false] at h
      simp only [h2s, if_false]
      exact ostrLe_total _ _ h
  · have h1s : b.1 ≠ a.1 := fun hh => h1 hh.symm
    simp only [keyLe, h1, if_false] at h
    simp only [keyLe, h1s, if_false]
    exact strLeB_total _ _ h

theorem rowLe_of_eq_keys (k : Key) (a b : Row)
    (ha : rowKey a = k) (hb : rowKey b = k) : rowLe a b = true := by
  rw [rowLe, ha, hb]
  exact keyLe_refl k

theorem rowLe_total (a b : Row) (h : rowLe a b = false) : rowLe b a = true :=
  keyLe_total _ _ h

/-! ### Record-update eta facts -/

theorem row_set_vindex_self (r : Row) (v : Option Nat) (h : r.v_index = v) :
    {r with v_index := v} = r := by
  cases r
  cases h
  rfl

theorem row_set_zone_self (r : Row) (z : Option String) (h : r.zone = z) :
    {r with zone := z} = r := by
  cases r
  cases h
  rfl

theorem frame_set_rows_self (f : Frame) (rs : List Row) (h : f.rows = rs) :
    {f with rows := rs} = f := by
  cases f
  cases h
  rfl

/-! ### Facts about `cumIndex`, `groupRows` and `nOf` -/

theorem rowKey_set_vindex (r : Row) (v : Option Nat) :
    rowKey {r with v_index := v} = rowKey r := rfl

theorem rowKey_set_zone (r : Row) (z : Option String) :
    rowKey {r with zone := z} = rowKey r := rfl

theorem payload_set_vindex (r : Row) (v : Option Nat) :
    payload {r with v_index := v} = payload r := rfl

theorem groupRows_nil (k : Key) : groupRows [] k = [] := rfl

theorem groupRows_cons (r : Row) (rs : List Row) (k : Key) :
    groupRows (r :: rs) k =
      if rowKey r = k then r :: groupRows rs k else groupRows rs k := by
  rw [groupRows, List.filter_cons]
  by_cases h : rowKey r = k
  · simp [h, groupRows]
  · simp [h, groupRows]

theorem cumIndex_cons (seen : List Key) (r : Row) (rs : List Row) :
    cumIndex seen (r :: rs) =
      {r with v_index := some (kcount (rowKey r) seen + 1)} ::
        cumIndex (seen ++ [rowKey r]) rs := rfl

theorem groupRows_map (g : Row → Row) (hg : ∀ r, rowKey (g r) = rowKey r)
    (l : List Row) (k : Key) :
    groupRows (l.map g) k = (groupRows l k).map g := by
  rw [groupRows, groupRows, List.filter_map]
  congr 1
  apply List.filter_congr
  intro r _
  simp [Function.comp, hg r]

theorem cumIndex_map_rowKey : ∀ (l : List Row) (seen : List Key),
    (cumIndex seen l).map rowKey = l.map rowKey
  | [], _ => rfl
  | r :: rs, seen => by
    rw [cumIndex_cons, List.map_cons, List.map_cons,
      cumIndex_map_rowKey rs (seen ++ [rowKey r]), rowKey_set_vindex]

theorem kcount_append (k k' : Key) (seen : List Key) :
    kcount k (seen ++ [k']) = kcount k seen + if k' = k then 1 else 0 := by
  simp [kcount, List.countP_append, List.countP_cons]

theorem countP_key_cons (r : Row) (rs : List Row) (k : Key) :
    (r :: rs).countP (fun s => decide (rowKey s = k)) =
      rs.countP (fun s => decide (rowKey s = k)) + if rowKey r = k then 1 else 0 := by
  rw [List.countP_cons]
  by_cases h : rowKey r = k
  · simp [h]
  · simp [h]

theorem groupRows_cumIndex_vindex (k : Key) : ∀ (l : List Row) (seen : List Key),
    (groupRows (cumIndex seen l) k).map Row.v_index =
      (List.range' (kcount k seen + 1)
        (l.countP (fun r => decide (rowKey r = k)))).map some
  | [], seen => by simp [groupRows, cumIndex]
  | r :: rs, seen => by
    rw [cumIndex_cons, groupRows_cons, rowKey_set_vindex, countP_key_cons]
    by_cases hk : rowKey r = k
    · rw [if_pos hk, if_pos hk, List.map_cons]
      have hseen : kcount k (seen ++ [rowKey r]) + 1 = kcount k seen + 1 + 1 := by
        rw [kcount_append, hk, if_pos rfl]
      have ih := groupRows_cumIndex_vindex k rs (seen ++ [rowKey r])
      rw [ih, hseen]
      have hn : rs.countP (fun s => decide (rowKey s = k)) + 1 =
          (rs.countP (fun s => decide (rowKey s = k))) + 1 := rfl
      rw [List.range'_succ, List.map_cons, hk]
    · rw [if_neg hk, if_neg hk, Nat.add_zero]
      have hseen : kcount k (seen ++ [rowKey r]) + 1 = kcount k seen + 1 := by
        rw [kcount_append, if_neg hk, Nat.add_zero]
      have ih := groupRows_cumIndex_vindex k rs (seen ++ [rowKey r])
      rw [ih, hseen]
      simp

theorem groupRows_cumIndex_payload (k : Key) : ∀ (l : List Row) (seen : List Key),
    (groupRows (cumIndex seen l) k).map payload = (groupRows l k).map payload
  | [], _ => rfl
  | r :: rs, seen => by
    rw [cumIndex_cons, groupRows_cons, groupRows_cons, rowKey_set_vindex]
    by_cases hk : rowKey r = k
    · rw [if_pos hk, if_pos hk, List.map_cons, List.map_cons, payload_set_vindex,
        groupRows_cumIndex_payload k rs (seen ++ [rowKey r])]
    · rw [if_neg hk, if_neg hk, groupRows_cumIndex_payload k rs (seen ++ [rowKey r])]

theorem cumIndex_map_stable (g : Row → Row) (hk : ∀ r, rowKey (g r) = rowKey r)
    (hv : ∀ r, (g r).v_index = r.v_index) :
    ∀ (l : List Row) (seen : List Key),
      cumIndex seen ((cumIndex seen l).map g) = (cumIndex seen l).map g
  | [], _ => rfl
  | r :: rs, seen => by
    rw [cumIndex_cons, List.map_cons, cumIndex_cons,
      hk {r with v_index := some (kcount (rowKey r) seen + 1)}, rowKey_set_vindex]
    congr 1
    · exact row_set_vindex_self _ _ (by rw [hv]; rfl)
    · exact cumIndex_map_stable g hk hv rs (seen ++ [rowKey r])

theorem listMax_cons (a : Nat) (l : List Nat) : listMax (a :: l) = max a (listMax l) := rfl

theorem listMax_range' : ∀ (n s : Nat), listMax (List.range' s (n + 1)) = s + n
  | 0, s => by
    rw [List.range'_succ]
    simp [listMax_cons, listMax, List.range']
  | n + 1, s => by
    rw [List.range'_succ, listMax_cons, listMax_range' n (s + 1)]
    rw [Nat.max_eq_right (by omega)]
    omega

theorem filterMap_vindex_of_map (l : List Row) (ns : List Nat)
    (h : l.map Row.v_index = ns.map some) : l.filterMap Row.v_index = ns := by
  have h1 : l.filterMap Row.v_index = (l.map Row.v_index).filterMap id := by
    rw [List.filterMap_map]
    rfl
  rw [h1, h, List.filterMap_map]
  simp [Function.comp]

theorem map_zone_of_vindex (c : ℤ) : ∀ (l : List Row) (ns : List Nat),
    l.map Row.v_index = ns.map some →
    (∀ r ∈ l, r.zone = some (zone_for_row c (Int.ofNat (r.v_index.getD 0)))) →
    l.map Row.zone = ns.map (fun i => some (zone_for_row c (Int.ofNat i)))
  | [], [], _, _ => rfl
  | [], _ :: _, h, _ => by simp at h
  | _ :: _, [], h, _ => by simp at h
  | r :: l, n :: ns, h, hz => by
    simp only [List.map_cons, List.cons.injEq] at h ⊢
    refine ⟨?_, map_zone_of_vindex c l ns h.2 (fun x hx => hz x (by simp [hx]))⟩
    rw [hz r (by simp), h.1]
    rfl

/-! ### The central description of `assign_zones` output -/

theorem assign_zones_ok (f fz : Frame) (h : assign_zones f = .ok fz) :
    f.hasFileName = true ∧
    fz = {f with rows := zoneStep (cumIndex [] (isortLe rowLe f.rows))} := by
  rw [assign_zones] at h
  split at h
  · refine ⟨by assumption, ?_⟩
    injection h with h
    exact h.symm
  · exact Except.noConfusion h

theorem zoneFun_rowKey (l : List Row) (r : Row) : rowKey (zoneFun l r) = rowKey r := rfl

theorem zoneFun_vindex (l : List Row) (r : Row) : (zoneFun l r).v_index = r.v_index := rfl

theorem zoneFun_zone (l : List Row) (r : Row) :
    (zoneFun l r).zone =
      some (zone_for_row (Int.ofNat (nOf l (rowKey r))) (Int.ofNat (r.v_index.getD 0))) := rfl

theorem zoneFun_payload (l : List Row) (r : Row) : payload (zoneFun l r) = payload r := rfl

theorem assign_zones_group (f fz : Frame) (h : assign_zones f = .ok fz) (k : Key) :
    (groupRows fz.rows k).map Row.v_index =
      (List.range' 1 (groupRows fz.rows k).length).map some
    ∧ (∀ r ∈ groupRows fz.rows k,
        r.zone = some (zone_for_row (Int.ofNat (groupRows fz.rows k).length)
                                    (Int.ofNat (r.v_index.getD 0))))
    ∧ (groupRows fz.rows k).map payload = (groupRows f.rows k).map payload := by
  obtain ⟨hfn, hfz⟩ := assign_zones_ok f fz h
  have hrows : fz.rows = zoneStep (cumIndex [] (isortLe rowLe f.rows)) := by rw [hfz]
  rw [hrows]
  have hp : ∀ a b : Row, decide (rowKey a = k) = true → decide (rowKey b = k) = true →
      rowLe a b = true := fun a b ha hb =>
    rowLe_of_eq_keys k a b (of_decide_eq_true ha) (of_decide_eq_true hb)
  have h1 : groupRows (zoneStep (cumIndex [] (isortLe rowLe f.rows))) k =
      (groupRows (cumIndex [] (isortLe rowLe f.rows)) k).map
        (zoneFun (cumIndex [] (isortLe rowLe f.rows))) := by
    rw [zoneStep]
    exact groupRows_map (zoneFun (cumIndex [] (isortLe rowLe f.rows))) (fun r => rfl) _ k
  have h2 : (groupRows (cumIndex [] (isortLe rowLe f.rows)) k).map Row.v_index =
      (List.range' 1 ((isortLe rowLe f.rows).countP (fun r => decide (rowKey r = k)))).map
        some := by
    have := groupRows_cumIndex_vindex k (isortLe rowLe f.rows) []
    simpa [kcount] using this
  have hlen_ind : (groupRows (cumIndex [] (isortLe rowLe f.rows)) k).length =
      (isortLe rowLe f.rows).countP (fun r => decide (rowKey r = k)) := by
    have := congrArg List.length h2
    simpa using this
  have hv_fz : (groupRows (zoneStep (cumIndex [] (isortLe rowLe f.rows))) k).map Row.v_index
      = (List.range' 1 ((isortLe rowLe f.rows).countP (fun r => decide (rowKey r = k)))).map
        some := by
    rw [h1, List.map_map]
    have hcomp : Row.v_index ∘ zoneFun (cumIndex [] (isortLe rowLe f.rows)) = Row.v_index :=
      funext fun r => rfl
    rw [hcomp, h2]
  have hlen_fz : (groupRows (zoneStep (cumIndex [] (isortLe rowLe f.rows))) k).length =
      (isortLe rowLe f.rows).countP (fun r => decide (rowKey r = k)) := by
    rw [h1, List.length_map, hlen_ind]
  refine ⟨?_, ?_, ?_⟩
  · rw [hlen_fz]
    exact hv_fz
  · intro r hr
    rw [h1] at hr
    obtain ⟨r₀, hr₀, rfl⟩ := List.mem_map.mp hr
    have hkr₀ : rowKey r₀ = k :=
      of_decide_eq_true (List.mem_filter.mp hr₀).2
    have hm : 1 ≤ (isortLe rowLe f.rows).countP (fun r => decide (rowKey r = k)) := by
      rw [← hlen_ind]
      exact List.length_pos.mpr (List.ne_nil_of_mem hr₀)
    have hnof : nOf (cumIndex [] (isortLe rowLe f.rows)) k =
        (isortLe rowLe f.rows).countP (fun r => decide (rowKey r = k)) := by
      obtain ⟨m', hm'⟩ : ∃ m',
          (isortLe rowLe f.rows).countP (fun r => decide (rowKey r = k)) = m' + 1 :=
        ⟨(isortLe rowLe f.rows).countP (fun r => decide (rowKey r = k)) - 1, by omega⟩
      rw [nOf]
      have hgr : (cumIndex [] (isortLe rowLe f.rows)).filter
          (fun s => decide (rowKey s = k)) =
          groupRows (cumIndex [] (isortLe rowLe f.rows)) k := rfl
      rw [hgr, filterMap_vindex_of_map _ _ h2, hm', listMax_range']
      omega
    rw [hlen_fz, zoneFun_zone, zoneFun_vindex, hkr₀, hnof]
  · rw [h1, List.map_map]
    have hcomp : payload ∘ zoneFun (cumIndex [] (isortLe rowLe f.rows)) = payload :=
      funext fun r => rfl
    rw [hcomp, groupRows_cumIndex_payload k (isortLe rowLe f.rows) []]
    have hfil : groupRows (isortLe rowLe f.rows) k = groupRows f.rows k := by
      rw [groupRows, groupRows]
      exact filter_isortLe rowLe _ hp f.rows
    rw [hfil]

/-! ### Idempotence of the Zone Assigner -/

theorem nOf_map_stable (g : Row → Row) (hk : ∀ r, rowKey (g r) = rowKey r)
    (hv : ∀ r, (g r).v_index = r.v_index) (l : List Row) (k : Key) :
    nOf (l.map g) k = nOf l k := by
  rw [nOf, nOf]
  have h1 := groupRows_map g hk l k
  rw [groupRows, groupRows] at h1
  rw [h1, List.filterMap_map]
  have hvf : Row.v_index ∘ g = Row.v_index := funext fun r => hv r
  rw [hvf]

theorem zoneStep_map_rowKey (l : List Row) : (zoneStep l).map rowKey = l.map rowKey := by
  rw [zoneStep, List.map_map]
  congr 1

theorem assign_zones_idem (f fz : Frame) (h : assign_zones f = .ok fz) :
    assign_zones fz = .ok fz := by
  obtain ⟨hfn, hfz⟩ := assign_zones_ok f fz h
  have hfnz : fz.hasFileName = true := by
    rw [hfz]
    exact hfn
  have hrows : fz.rows = zoneStep (cumIndex [] (isortLe rowLe f.rows)) := by rw [hfz]
  rw [assign_zones, if_pos hfnz]
  have hfix : zoneStep (cumIndex [] (isortLe rowLe fz.rows)) = fz.rows := by
    rw [hrows]
    have hzf : zoneStep (cumIndex [] (isortLe rowLe f.rows)) =
        (cumIndex [] (isortLe rowLe f.rows)).map
          (zoneFun (cumIndex [] (isortLe rowLe f.rows))) := rfl
    have hmapkey : (zoneStep (cumIndex [] (isortLe rowLe f.rows))).map rowKey =
        (isortLe rowLe f.rows).map rowKey := by
      rw [zoneStep_map_rowKey, cumIndex_map_rowKey]
    have c1 : List.Chain' (fun a b => rowLe a b = true) (isortLe rowLe f.rows) :=
      chain'_isortLe rowLe rowLe_total f.rows
    have c2 : List.Chain' (fun x y => keyLe x y = true)
        ((isortLe rowLe f.rows).map rowKey) :=
      (List.chain'_map rowKey).mpr c1
    have c3 : List.Chain' (fun x y => keyLe x y = true)
        ((zoneStep (cumIndex [] (isortLe rowLe f.rows))).map rowKey) := by
      rw [hmapkey]
      exact c2
    have c4 : List.Chain' (fun a b => rowLe a b = true)
        (zoneStep (cumIndex [] (isortLe rowLe f.rows))) :=
      (List.chain'_map rowKey).mp c3
    rw [isortLe_eq_self rowLe _ c4]
    have hcum : cumIndex [] (zoneStep (cumIndex [] (isortLe rowLe f.rows))) =
        zoneStep (cumIndex [] (isortLe rowLe f.rows)) := by
      rw [hzf]
      exact cumIndex_map_stable (zoneFun (cumIndex [] (isortLe rowLe f.rows)))
        (fun r => rfl) (fun r => rfl) (isortLe rowLe f.rows) []
    rw [hcum]
    have hnof : ∀ k, nOf (zoneStep (cumIndex [] (isortLe rowLe f.rows))) k =
        nOf (cumIndex [] (isortLe rowLe f.rows)) k := by
      intro k
      rw [hzf]
      exact nOf_map_stable (zoneFun (cumIndex [] (isortLe rowLe f.rows)))
        (fun r => rfl) (fun r => rfl) _ k
    have hpoint : ∀ r ∈ zoneStep (cumIndex [] (isortLe rowLe f.rows)),
        zoneFun (zoneStep (cumIndex [] (isortLe rowLe f.rows))) r = r := by
      intro r hr
      rw [hzf] at hr
      obtain ⟨r₀, hr₀, rfl⟩ := List.mem_map.mp hr
      rw [zoneFun]
      apply row_set_zone_self
      rw [zoneFun_zone, zoneFun_rowKey, zoneFun_vindex, hnof (rowKey r₀)]
    show (zoneStep (cumIndex [] (isortLe rowLe f.rows))).map
        (zoneFun (zoneStep (cumIndex [] (isortLe rowLe f.rows)))) = _
    rw [List.map_congr_left hpoint]
    simp
  rw [hfix]

/-! ### Facts about the Dataset Assembler -/

theorem prepare_ok (g f : Frame) (h : prepare_full_dataframe g = .ok f) :
    g.hasTranscription = true ∧ g.hasPercent = true ∧
    ∃ rows2, deriveEmotion g.hasEmotion g.hasFileName (g.rows.filter keepRow) = .ok rows2 ∧
      f = {g with hasEmotion := true, hasDur := true,
                  rows := rows2.map (deriveDur g.hasTotal g.hasDuration)} := by
  rw [prepare_full_dataframe] at h
  split at h
  · split at h
    · exact Except.noConfusion h
    · split at h
      · injection h with h
        refine ⟨by assumption, by assumption, _, by assumption, h.symm⟩
      · exact Except.noConfusion h
  · exact Except.noConfusion h

theorem deriveEmotion_isOk (he hf : Bool) (rows : List Row) :
    (∃ rows2, deriveEmotion he hf rows = .ok rows2) ↔ (he = true ∨ hf = true) := by
  rw [deriveEmotion]
  by_cases h1 : he = true
  · simp [h1]
  · by_cases h2 : hf = true
    · simp [h1, h2]
    · constructor
      · rintro ⟨rows2, hr⟩
        rw [if_neg h1, if_neg h2] at hr
        exact Except.noConfusion hr
      · rintro (h | h)
        · exact absurd h h1
        · exact absurd h h2

theorem prepare_isOk_iff (g : Frame) :
    (∃ f, prepare_full_dataframe g = .ok f) ↔
      (g.hasTranscription = true ∧ (g.hasEmotion = true ∨ g.hasFileName = true) ∧
        g.hasPercent = true) := by
  constructor
  · rintro ⟨f, h⟩
    obtain ⟨ht, hp, rows2, he, _⟩ := prepare_ok g f h
    exact ⟨ht, (deriveEmotion_isOk _ _ _).mp ⟨rows2, he⟩, hp⟩
  · rintro ⟨ht, hor, hp⟩
    obtain ⟨rows2, he⟩ := (deriveEmotion_isOk g.hasEmotion g.hasFileName
      (g.rows.filter keepRow)).mpr hor
    refine ⟨{g with hasEmotion := true, hasDur := true, rows := rows2.map (deriveDur g.hasTotal g.hasDuration)}, ?_⟩
    rw [prepare_full_dataframe, if_pos ht, he]
    simp [hp]

theorem deriveDur_tp (a b : Bool) (r : Row) :
    (deriveDur a b r).transcription_phonemes = r.transcription_phonemes := by
  rw [deriveDur]
  split
  · rfl
  · split
    · rfl
    · rfl

theorem deriveDur_total (a b : Bool) (r : Row) :
    (deriveDur a b r).total_duration = r.total_duration := by
  rw [deriveDur]
  split
  · rfl
  · split
    · rfl
    · rfl

theorem deriveDur_pd (a b : Bool) (r : Row) :
    (deriveDur a b r).percent_duration = r.percent_duration := by
  rw [deriveDur]
  split
  · rfl
  · split
    · rfl
    · rfl

theorem deriveDur_dur_s_total (b : Bool) (r : Row) :
    (deriveDur true b r).dur_s = omul (odiv r.percent_duration 100) r.total_duration := rfl

theorem deriveDur_dur_s_duration (r : Row) :
    (deriveDur false true r).dur_s = r.duration := rfl

theorem deriveDur_dur_s_none (r : Row) : (deriveDur false false r).dur_s = none := rfl

theorem deriveDur_duration_field (a b : Bool) (r : Row) :
    (deriveDur a b r).duration = r.duration := by
  rw [deriveDur]
  split
  · rfl
  · split
    · rfl
    · rfl

theorem deriveEmotion_ok_map_tp (he hf : Bool) (rows rows2 : List Row)
    (h : deriveEmotion he hf rows = .ok rows2) :
    rows2.map Row.transcription_phonemes = rows.map Row.transcription_phonemes := by
  rw [deriveEmotion] at h
  split at h
  · injection h with h
    rw [← h]
  · split at h
    · injection h with h
      rw [← h, List.map_map]
      exact List.map_congr_left (fun r _ => rfl)
    · exact Except.noConfusion h

theorem keepRow_of_none (r : Row) (h : r.transcription_phonemes = none) :
    keepRow r = true := by
  rw [keepRow, h]

theorem keepRow_false_iff (r : Row) :
    keepRow r = false ↔
      ∃ s, r.transcription_phonemes = some s ∧ pyLowerStr s = "consonant" := by
  rw [keepRow]
  cases htp : r.transcription_phonemes with
  | none => simp
  | some s => simp [htp]

theorem omean_of_all_none (xs : List (Option ℚ)) (h : ∀ x ∈ xs, x = none) :
    omean xs = none := by
  have hnil : xs.filterMap id = [] := by
    rw [List.filterMap_eq_nil_iff]
    intro a ha
    exact h a ha
  rw [omean, hnil]
  rfl

theorem osvar_of_all_none (xs : List (Option ℚ)) (h : ∀ x ∈ xs, x = none) :
    osvar xs = none := by
  have hnil : xs.filterMap id = [] := by
    rw [List.filterMap_eq_nil_iff]
    intro a ha
    exact h a ha
  rw [osvar, hnil]
  rfl

/-! ### Facts about the overall Aggregator -/

theorem overall_hasDurCols (f : Frame) :
    (compute_overall_table f).hasDurCols = f.hasDur := rfl

theorem overall_rows_map_key (f : Frame) :
    (compute_overall_table f).rows.map (fun r => (r.emotion, r.variant)) =
      overallKeys f.rows := by
  rw [compute_overall_table, List.map_map]
  conv_rhs => rw [← List.map_id (overallKeys f.rows)]
  exact List.map_congr_left (fun k _ => rfl)

theorem overallKeys_nodup (rows : List Row) : (overallKeys rows).Nodup := by
  rw [overallKeys]
  exact ((isortLe_perm pairLe _).nodup_iff).mpr (List.nodup_dedup _)

theorem overallKeys_mem (rows : List Row) (e v : String) :
    (e, v) ∈ overallKeys rows ↔ ∃ r ∈ rows, r.emotion = some e ∧ r.variant = v := by
  rw [overallKeys, (isortLe_perm pairLe _).mem_iff, List.mem_dedup, List.mem_filterMap]
  constructor
  · rintro ⟨r, hr, hmap⟩
    obtain ⟨a, ha, hav⟩ := Option.map_eq_some'.mp hmap
    have h1 : a = e := congrArg Prod.fst hav
    have h2 : r.variant = v := congrArg Prod.snd hav
    exact ⟨r, hr, h1 ▸ ha, h2⟩
  · rintro ⟨r, hr, he, hv⟩
    refine ⟨r, hr, ?_⟩
    rw [he, hv]
    rfl

theorem overall_rows_stats (f : Frame) :
    ∀ row ∈ (compute_overall_table f).rows,
      row.pdMean = omean (groupPd f.rows (row.emotion, row.variant))
      ∧ row.pdVar = osvar (groupPd f.rows (row.emotion, row.variant))
      ∧ row.dMean =
          (if f.hasDur = true then omean (groupDur f.rows (row.emotion, row.variant)) else none)
      ∧ row.dVar =
          (if f.hasDur = true then osvar (groupDur f.rows (row.emotion, row.variant)) else none) := by
  intro row hrow
  rw [compute_overall_table] at hrow
  obtain ⟨k, hk, rfl⟩ := List.mem_map.mp hrow
  exact ⟨rfl, rfl, rfl, rfl⟩

/-! ### The claims -/

/-- C1: in every zone-assigned `(variant, emotion, file_name)` group of
size `n`, each record's zone is `zone_for_row n i` for its own `v_index`
`i` with `1 ≤ i ≤ n`; the rule is `i ≤ 3 → start`, else `i > n − 3 →
end`, else `middle` (so the start check takes precedence whenever both
conditions hold); and for `n = 10` the zones are start = {1,2,3},
middle = {4,5,6,7}, end = {8,9,10}. -/
theorem C1_zone_rule : ∀ f fz, assign_zones f = .ok fz → ∀ kv ke kf : String,
    (∀ r ∈ groupRows fz.rows (kv, some ke, some kf),
      ∃ i : ℕ, r.v_index = some i ∧ 1 ≤ i ∧
        i ≤ (groupRows fz.rows (kv, some ke, some kf)).length ∧
        r.zone = some (zone_for_row
          (Int.ofNat (groupRows fz.rows (kv, some ke, some kf)).length) (Int.ofNat i)))
    ∧ (∀ n i : ℤ, (i ≤ 3 → zone_for_row n i = "начало")
        ∧ (3 < i → n - 3 < i → zone_for_row n i = "конец")
        ∧ (3 < i → i ≤ n - 3 → zone_for_row n i = "середина"))
    ∧ ((groupRows fz.rows (kv, some ke, some kf)).length = 10 →
        (groupRows fz.rows (kv, some ke, some kf)).map Row.zone =
          [some "начало", some "начало", some "начало", some "середина", some "середина",
           some "середина", some "середина", some "конец", some "конец", some "конец"]) := by
  intro f fz h kv ke kf
  obtain ⟨hv, hz, _⟩ := assign_zones_group f fz h (kv, some ke, some kf)
  refine ⟨?_, ?_, ?_⟩
  · intro r hr
    have hmem : r.v_index ∈
        (groupRows fz.rows (kv, some ke, some kf)).map Row.v_index :=
      List.mem_map_of_mem _ hr
    rw [hv] at hmem
    obtain ⟨i, hi, hivx⟩ := List.mem_map.mp hmem
    obtain ⟨hi1, hi2⟩ := List.mem_range'_1.mp hi
    refine ⟨i, hivx.symm, hi1, by omega, ?_⟩
    have hzr := hz r hr
    rw [← hivx] at hzr
    simpa using hzr
  · intro n i
    refine ⟨fun h1 => ?_, fun h1 h2 => ?_, fun h1 h2 => ?_⟩
    · rw [zone_for_row, if_pos h1]
    · rw [zone_for_row, if_neg (by omega), if_pos (by omega)]
    · rw [zone_for_row, if_neg (by omega), if_neg (by omega)]
  · intro hlen
    have hmapz := map_zone_of_vindex
      (Int.ofNat (groupRows fz.rows (kv, some ke, some kf)).length)
      (groupRows fz.rows (kv, some ke, some kf))
      (List.range' 1 (groupRows fz.rows (kv, some ke, some kf)).length) hv hz
    rw [hmapz, hlen]
    rfl

/-- C1 witness: the ten-vowel utterance frame `wT` realizes the `n = 10`
zone pattern. -/
theorem C1_zone_rule_witness :
    (groupRows wTZ.rows ("в", some "э", some "u")).map Row.zone =
      [some "начало", some "начало", some "начало", some "середина", some "середина",
       some "середина", some "середина", some "конец", some "конец", some "конец"] :=
  (C1_zone_rule wT wTZ (by decide) "в" "э" "u").2.2 (by decide)

/-- C3: the ordering `assign_zones` establishes inside each
`(variant, emotion, file_name)` group preserves the original relative
order of the records (the sort by the group key is stable): the group's
rows in the output, stripped of the added `v_index`/`zone` annotations,
are exactly the group's rows of the input in input order. -/
theorem C3_stable_order : ∀ f fz, assign_zones f = .ok fz → ∀ kv ke kf : String,
    (groupRows fz.rows (kv, some ke, some kf)).map payload =
      (groupRows f.rows (kv, some ke, some kf)).map payload :=
  fun f fz h kv ke kf => (assign_zones_group f fz h (kv, some ke, some kf)).2.2

/-- C3 witness: on the interleaved two-utterance frame `wA`, the `u1`
group of the output lists the `u1` records in their original order. -/
theorem C3_stable_order_witness :
    (groupRows wAZ.rows ("в", some "э", some "u1")).map payload =
      (groupRows wA.rows ("в", some "э", some "u1")).map payload :=
  C3_stable_order wA wAZ (by decide) "в" "э" "u1"

/-- C4: within every zone-assigned `(variant, emotion, file_name)` group
of size `n`, the `v_index` values are, in group order, exactly
`1, …, n`: no value repeats and exactly the values `1 ≤ i ≤ n` occur. -/
theorem C4_vindex_contiguous : ∀ f fz, assign_zones f = .ok fz → ∀ kv ke kf : String,
    (groupRows fz.rows (kv, some ke, some kf)).map Row.v_index =
      (List.range' 1 (groupRows fz.rows (kv, some ke, some kf)).length).map some
    ∧ ((groupRows fz.rows (kv, some ke, some kf)).map Row.v_index).Nodup
    ∧ (∀ i : ℕ, some i ∈ (groupRows fz.rows (kv, some ke, some kf)).map Row.v_index ↔
        (1 ≤ i ∧ i ≤ (groupRows fz.rows (kv, some ke, some kf)).length)) := by
  intro f fz h kv ke kf
  obtain ⟨hv, _, _⟩ := assign_zones_group f fz h (kv, some ke, some kf)
  refine ⟨hv, ?_, ?_⟩
  · rw [hv]
    exact List.Nodup.map (Option.some_injective ℕ) (List.nodup_range' _ _)
  · intro i
    rw [hv, List.mem_map_of_injective (Option.some_injective ℕ), List.mem_range'_1]
    omega

/-- C4 witness: the `u1` group of `wAZ` carries `v_index` values `1, 2, 3`. -/
theorem C4_vindex_contiguous_witness :
    (groupRows wAZ.rows ("в", some "э", some "u1")).map Row.v_index =
      (List.range' 1 (groupRows wAZ.rows ("в", some "э", some "u1")).length).map some :=
  (C4_vindex_contiguous wA wAZ (by decide) "в" "э" "u1").1

/-- C5: the Zone Assigner is idempotent: whenever it succeeds, running it
again on its own output (keys unchanged — the output keeps `file_name`,
`variant` and `emotion` untouched) returns that output unchanged, so every
record keeps the same `v_index` and `zone`. -/
theorem C5_idempotent : ∀ f fz, assign_zones f = .ok fz → assign_zones fz = .ok fz :=
  fun f fz h => assign_zones_idem f fz h

/-- C5 witness: re-assigning zones on the already-assigned frame `wAZ`
returns it unchanged. -/
theorem C5_idempotent_witness : assign_zones wAZ = .ok wAZ :=
  C5_idempotent wA wAZ (by decide)

/-- C2 counterexample: on the frame `cx2` (an `emotion` column but no
`file_name` column) the run raises a `SchemaError` — from `assign_zones`,
inside `compute_zone_table` — yet the overall table has already been
printed to standard output, so not every `SchemaError` aborts the run
before any output is produced. -/
theorem C2_abort_counterexample :
    (runMain cx2).2 = some "Для позиционного анализа необходим столбец file_name"
    ∧ (runMain cx2).1 ≠ [] := by
  constructor
  · rfl
  · decide

/-- C2 (amended): a `SchemaError` raised during dataset assembly aborts
the run before any output is produced (the zone-assignment `SchemaError`
for a missing `file_name`, however, is only raised after the overall
table is printed). -/
theorem C2_abort_amended : ∀ (g : Frame) (e : String),
    prepare_full_dataframe g = .error e → runMain g = ([], some e) := by
  intro g e h
  rw [runMain, h]

/-- C2 witness: the frame missing `transcription_phonemes` aborts with no
output at all. -/
theorem C2_abort_amended_witness :
    runMain cx2b = ([], some "Не найден столбец transcription_phonemes") :=
  C2_abort_amended cx2b "Не найден столбец transcription_phonemes" (by decide)

/-- C6 counterexample: the assembled frame `f9` of the duration-less input
`raw9` still makes `compute_overall_table` include the duration-statistics
columns (with undefined values), because `prepare_full_dataframe` always
creates the `dur_s` column; the columns are not omitted as claimed. -/
theorem C6_counterexample :
    prepare_full_dataframe raw9 = .ok f9
    ∧ raw9.hasTotal = false ∧ raw9.hasDuration = false
    ∧ (compute_overall_table f9).hasDurCols = true
    ∧ (compute_overall_table f9).rows.map OverallRow.dMean = [none]
    ∧ (compute_overall_table f9).rows.map OverallRow.dVar = [none] := by
  refine ⟨by decide, rfl, rfl, rfl, by decide, by decide⟩

/-- C6 (amended): for every assembled dataset, the overall table has one
row per `(emotion, variant)` combination present in the input — no
duplicates, no zero-filling — with the mean and the sample variance
(whose square root is the printed sample standard deviation) of
`percent_duration`; the `dur_s` statistics columns are always included,
because the assembler always creates `dur_s` (filled with missing values
when no duration source exists), and in that case their statistics are
undefined (missing) rather than the columns being omitted. -/
theorem C6_overall_table : ∀ g f, prepare_full_dataframe g = .ok f →
    (compute_overall_table f).hasDurCols = true
    ∧ ((compute_overall_table f).rows.map (fun r => (r.emotion, r.variant))).Nodup
    ∧ (∀ e v : String,
        (e, v) ∈ (compute_overall_table f).rows.map (fun r => (r.emotion, r.variant)) ↔
          ∃ r ∈ f.rows, r.emotion = some e ∧ r.variant = v)
    ∧ (∀ row ∈ (compute_overall_table f).rows,
        row.pdMean = omean (groupPd f.rows (row.emotion, row.variant))
        ∧ row.pdVar = osvar (groupPd f.rows (row.emotion, row.variant)))
    ∧ (g.hasTotal = false → g.hasDuration = false →
        ∀ row ∈ (compute_overall_table f).rows, row.dMean = none ∧ row.dVar = none) := by
  intro g f h
  obtain ⟨ht, hp, rows2, he, hf⟩ := prepare_ok g f h
  have hdur : f.hasDur = true := by rw [hf]
  refine ⟨by rw [overall_hasDurCols, hdur], ?_, ?_, ?_, ?_⟩
  · rw [overall_rows_map_key]
    exact overallKeys_nodup f.rows
  · intro e v
    rw [overall_rows_map_key]
    exact overallKeys_mem f.rows e v
  · intro row hrow
    exact ⟨(overall_rows_stats f row hrow).1, (overall_rows_stats f row hrow).2.1⟩
  · intro hT hD row hrow
    have hnone : ∀ r ∈ f.rows, r.dur_s = none := by
      intro r hr
      have hrows : f.rows = rows2.map (deriveDur g.hasTotal g.hasDuration) := by rw [hf]
      rw [hrows] at hr
      obtain ⟨r₀, _, rfl⟩ := List.mem_map.mp hr
      rw [hT, hD]
      exact deriveDur_dur_s_none r₀
    have hgd : ∀ x ∈ groupDur f.rows (row.emotion, row.variant), x = none := by
      intro x hx
      rw [groupDur] at hx
      obtain ⟨r, hr, rfl⟩ := List.mem_map.mp hx
      exact hnone r (List.mem_of_mem_filter hr)
    have hstats := overall_rows_stats f row hrow
    refine ⟨?_, ?_⟩
    · rw [hstats.2.2.1, if_pos hdur]
      exact omean_of_all_none _ hgd
    · rw [hstats.2.2.2, if_pos hdur]
      exact osvar_of_all_none _ hgd

/-- C6 witness: the assembled duration-less frame `f9` keeps the duration
columns in its overall table. -/
theorem C6_overall_table_witness : (compute_overall_table f9).hasDurCols = true :=
  (C6_overall_table raw9 f9 (by decide)).1

/-- C7: `detect_emotion` lower-cases its input and tests the substrings in
the fixed order anger (`гнев`), joy (`радост`), neutral (`нейтр`, or the
Latin-script `neutr`), returning the category of the first match, and
`другое` (other) when none matches. -/
theorem C7_detect_emotion : ∀ s : String,
    (strContains (pyLowerStr s) "гнев" = true → detect_emotion s = "гнев")
    ∧ (strContains (pyLowerStr s) "гнев" = false →
        strContains (pyLowerStr s) "радост" = true → detect_emotion s = "радость")
    ∧ (strContains (pyLowerStr s) "гнев" = false →
        strContains (pyLowerStr s) "радост" = false →
        (strContains (pyLowerStr s) "нейтр" || strContains (pyLowerStr s) "neutr") = true →
        detect_emotion s = "нейтральная")
    ∧ (strContains (pyLowerStr s) "гнев" = false →
        strContains (pyLowerStr s) "радост" = false →
        strContains (pyLowerStr s) "нейтр" = false →
        strContains (pyLowerStr s) "neutr" = false → detect_emotion s = "другое") := by
  intro s
  refine ⟨fun h1 => ?_, fun h1 h2 => ?_, fun h1 h2 h3 => ?_, fun h1 h2 h3 h4 => ?_⟩
  · simp [detect_emotion, h1]
  · simp [detect_emotion, h1, h2]
  · simp [detect_emotion, h1, h2, h3]
  · simp [detect_emotion, h1, h2, h3, h4]

/-- C7 witness: a name containing the upper-cased anger substring is
classified as anger. -/
theorem C7_detect_emotion_witness : detect_emotion "ГНЕВ_1" = "гнев" :=
  (C7_detect_emotion "ГНЕВ_1").1 (by decide)

/-- C8: `dur_s` is derived with the priority: with a `total_duration`
column every record gets `dur_s = percent_duration / 100 *
total_duration`; otherwise with a `duration` column every record gets
`dur_s = duration`; otherwise `dur_s` is missing for every record — and
assembly succeeds or fails independently of the duration columns, so
their absence is not an error. -/
theorem C8_dur_priority : ∀ g : Frame,
    ((∃ f, prepare_full_dataframe g = .ok f) ↔
      (g.hasTranscription = true ∧ (g.hasEmotion = true ∨ g.hasFileName = true) ∧
        g.hasPercent = true))
    ∧ ∀ f, prepare_full_dataframe g = .ok f →
        (g.hasTotal = true →
          ∀ r ∈ f.rows, r.dur_s = omul (odiv r.percent_duration 100) r.total_duration)
        ∧ (g.hasTotal = false → g.hasDuration = true →
            ∀ r ∈ f.rows, r.dur_s = r.duration)
        ∧ (g.hasTotal = false → g.hasDuration = false →
            ∀ r ∈ f.rows, r.dur_s = none) := by
  intro g
  refine ⟨prepare_isOk_iff g, ?_⟩
  intro f h
  obtain ⟨ht, hp, rows2, he, hf⟩ := prepare_ok g f h
  have hrows : f.rows = rows2.map (deriveDur g.hasTotal g.hasDuration) := by rw [hf]
  refine ⟨?_, ?_, ?_⟩
  · intro hT r hr
    rw [hrows] at hr
    obtain ⟨r₀, _, rfl⟩ := List.mem_map.mp hr
    rw [hT, deriveDur_dur_s_total, deriveDur_pd, deriveDur_total]
  · intro hT hD r hr
    rw [hrows] at hr
    obtain ⟨r₀, _, rfl⟩ := List.mem_map.mp hr
    rw [hT, hD, deriveDur_dur_s_duration, deriveDur_duration_field]
  · intro hT hD r hr
    rw [hrows] at hr
    obtain ⟨r₀, _, rfl⟩ := List.mem_map.mp hr
    rw [hT, hD, deriveDur_dur_s_none]

/-- C8 witness: in the assembled frame `f8` (a `total_duration` column is
present) the row's `dur_s` equals `percent_duration / 100 *
total_duration`. -/
theorem C8_dur_priority_witness :
    row8d.dur_s = omul (odiv row8d.percent_duration 100) row8d.total_duration :=
  ((C8_dur_priority g8).2 f8 rfl).1 rfl row8d (List.mem_singleton_self row8d)

theorem f9_table_step :
    (compute_overall_table f9).rows.map OverallRow.pdMean =
      [omean (groupPd f9.rows ("нейтральная", "русский вариант"))]
    ∧ (compute_overall_table f9).rows.map OverallRow.pdVar =
      [osvar (groupPd f9.rows ("нейтральная", "русский вариант"))] := by
  have hkeys : overallKeys f9.rows = [("нейтральная", "русский вариант")] := by decide
  constructor
  · simp only [compute_overall_table, hkeys, List.map_cons, List.map_nil]
  · simp only [compute_overall_table, hkeys, List.map_cons, List.map_nil]

theorem f9_groupPd :
    groupPd f9.rows ("нейтральная", "русский вариант") = [some 10, some 20, some 70] := by
  decide

theorem f9_pdMean :
    (compute_overall_table f9).rows.map OverallRow.pdMean = [some (100/3)] := by
  rw [f9_table_step.1, f9_groupPd]
  have hfm : List.filterMap id [some (10:ℚ), some 20, some 70] = [10, 20, 70] := rfl
  rw [omean]
  simp only [hfm]
  norm_num

theorem f9_pdVar :
    (compute_overall_table f9).rows.map OverallRow.pdVar = [some (3100/3)] := by
  rw [f9_table_step.2, f9_groupPd]
  have hfm : List.filterMap id [some (10:ℚ), some 20, some 70] = [10, 20, 70] := rfl
  rw [osvar]
  simp only [hfm]
  norm_num

/-- C9 counterexample: in the concrete scenario the mean percent duration
of the (нейтральная, русский вариант) row is 100/3 = 33.33…, which is not
exactly 33.33. -/
theorem C9_scenario_counterexample :
    prepare_full_dataframe raw9 = .ok f9
    ∧ ¬ ((compute_overall_table f9).rows.map OverallRow.pdMean = [some (3333/100)]) := by
  refine ⟨by decide, fun hc => ?_⟩
  rw [f9_pdMean] at hc
  simp only [List.cons.injEq, Option.some.injEq, and_true] at hc
  norm_num at hc

/-- C9 (amended): in the concrete scenario (three records of utterance
`u1`, Russian variant, neutral emotion, percent durations 10, 20, 70, no
duration columns) zone assignment yields `v_index = [1, 2, 3]` with every
zone `начало`, `dur_s` is undefined, and the overall-table row for
(нейтральная, русский вариант) has mean percent duration 100/3 ≈ 33.33
(within 0.005, so it rounds to 33.33) and sample variance 3100/3, whose
square root — the sample standard deviation — lies between 32.14 and
32.15, hence ≈ 32.14. -/
theorem C9_scenario :
    prepare_full_dataframe raw9 = .ok f9
    ∧ assign_zones f9 = .ok z9
    ∧ z9.rows.map Row.v_index = [some 1, some 2, some 3]
    ∧ z9.rows.map Row.zone = [some "начало", some "начало", some "начало"]
    ∧ z9.rows.map Row.dur_s = [none, none, none]
    ∧ (compute_overall_table f9).rows.map (fun r => (r.emotion, r.variant))
        = [("нейтральная", "русский вариант")]
    ∧ (compute_overall_table f9).rows.map OverallRow.pdMean = [some (100/3)]
    ∧ (compute_overall_table f9).rows.map OverallRow.pdVar = [some (3100/3)]
    ∧ (3333/100 - (1:ℚ)/200 < 100/3 ∧ (100/3 : ℚ) < 3333/100 + 1/200)
    ∧ (3214/100 : ℚ)^2 < 3100/3 ∧ (3100/3 : ℚ) < (3215/100)^2 := by
  refine ⟨by decide, by decide, by decide, by decide, by decide, by decide,
    f9_pdMean, f9_pdVar, by norm_num, by norm_num, by norm_num⟩

/-- C10: assembly keeps every record whose `transcription_phonemes` cell
is missing (pandas `NaN != "consonant"` is true): the retained records
are exactly those passing `keepRow`, a record with a missing cell always
passes, and a record is removed exactly when its cell lower-cases to
`"consonant"`. -/
theorem C10_consonant_filter : ∀ g f, prepare_full_dataframe g = .ok f →
    f.rows.map Row.transcription_phonemes =
      (g.rows.filter keepRow).map Row.transcription_phonemes
    ∧ (∀ r : Row, r.transcription_phonemes = none → keepRow r = true)
    ∧ (∀ r : Row, keepRow r = false ↔
        ∃ s, r.transcription_phonemes = some s ∧ pyLowerStr s = "consonant") := by
  intro g f h
  obtain ⟨ht, hp, rows2, he, hf⟩ := prepare_ok g f h
  refine ⟨?_, keepRow_of_none, keepRow_false_iff⟩
  have hrows : f.rows = rows2.map (deriveDur g.hasTotal g.hasDuration) := by rw [hf]
  rw [hrows, List.map_map]
  have h1 : (Row.transcription_phonemes ∘ deriveDur g.hasTotal g.hasDuration) =
      Row.transcription_phonemes := funext fun r => deriveDur_tp _ _ r
  rw [h1]
  exact deriveEmotion_ok_map_tp _ _ _ _ he

/-- C10 witness: in `g10` the record with a missing cell is kept, the
consonant record removed. -/
theorem C10_consonant_filter_witness :
    f10.rows.map Row.transcription_phonemes =
      (g10.rows.filter keepRow).map Row.transcription_phonemes :=
  (C10_consonant_filter g10 f10 (by decide)).1

end BilingTempo
